import Mathlib

set_option linter.unusedVariables false

/-! Shallow embedding of the residual/Jacobian assembly layer of the Genius
semiconductor device simulator (the files under `src/solver` of the
repository).  Scalars are modelled by an arbitrary linear ordered field so
that every definition stays executable; the transcendental functions `log`
and `sqrt` used by the solver enter as explicit function parameters and are
instantiated with `Real.log` / `Real.sqrt` inside the theorems that need
their analytic properties. -/

/-- Region types distinguished by the region/boundary assembly switches of
the sampled sources (`SemiconductorRegion`, `InsulatorRegion`,
`ElectrodeRegion`, `MetalRegion`, `VacuumRegion`). -/
inductive RegionType where
  | Semiconductor
  | Insulator
  | Electrode
  | Metal
  | Vacuum
deriving DecidableEq, Repr

/-- Modelled from the spec: `PetscUtils::VecAddClearRow` is invoked from
`EBM3Solver::build_petsc_sens_residual` (ebm3.cc line 955) but its
implementation is not among the sampled sources.  Following the spec's
row-surgery contract ("`add_row_to_row(matrix_or_vector, src, dst)`
(algebraic add), `zero_rows(matrix_or_vector, rows, diagonal_value)`"),
each source row's original value is algebraically added into the paired
destination row, and afterwards every row listed in `clear` is zeroed. -/
def vecAddClearRow {α : Type} [LinearOrderedField α]
    (v : ℕ → α) (src dst clear : List ℕ) : ℕ → α :=
  fun k =>
    if k ∈ clear then 0
    else v k + (((src.zip dst).filter (fun p => decide (p.2 = k))).map (fun p => v p.1)).sum

/-- One `(region, FVM_Node)` pair at a boundary node, as enumerated by
`BoundaryCondition::region_node_begin/end`: the region's type together with
the node's local and global unknown offsets. -/
structure RegionNode where
  rtype : RegionType
  localOff : ℕ
  globalOff : ℕ
deriving DecidableEq, Repr

/-- The `i >= 1` part of the switch in `HomoInterfaceBC::DDM1_Function_Preprocess`
(ddm1_boundary_homo_interface.cc lines 66-98): a subsequent semiconductor
region contributes three row-surgery triples (rows `+0,+1,+2` merged into
the reference pair's rows and cleared), an insulator region contributes one,
and any other region type hits `default: genius_error()`. -/
def homoPreprocessTail (ref : RegionNode) :
    List RegionNode → Except String (List ℕ × List ℕ × List ℕ)
  | [] => Except.ok ([], [], [])
  | rn :: rest =>
    match rn.rtype with
    | RegionType.Semiconductor =>
      (homoPreprocessTail ref rest).map (fun sdc =>
        ([rn.globalOff, rn.globalOff + 1, rn.globalOff + 2] ++ sdc.1,
         [ref.globalOff, ref.globalOff + 1, ref.globalOff + 2] ++ sdc.2.1,
         [rn.globalOff, rn.globalOff + 1, rn.globalOff + 2] ++ sdc.2.2))
    | RegionType.Insulator =>
      (homoPreprocessTail ref rest).map (fun sdc =>
        (rn.globalOff :: sdc.1, ref.globalOff :: sdc.2.1, rn.globalOff :: sdc.2.2))
    | _ => Except.error "HomoInterfaceBC::DDM1_Function_Preprocess genius_error"

/-- `HomoInterfaceBC::DDM1_Function_Preprocess` at one boundary node: the
first `(region, FVM_Node)` pair is the reference (`i == 0` is skipped), the
remaining pairs are dispatched by region type. -/
def homoPreprocessNode :
    List RegionNode → Except String (List ℕ × List ℕ × List ℕ)
  | [] => Except.ok ([], [], [])
  | ref :: rest => homoPreprocessTail ref rest

/-- The `i >= 1` part of the switch in `HomoInterfaceBC::DDM1_Function`
(ddm1_boundary_homo_interface.cc lines 157-203): the replacement equations
added at a subsequent pair's rows express equality with the reference
pair's unknowns (`V - V_semi`, `n - n_semi`, `p - p_semi`, a subsequent
insulator pair only couples the potential). -/
def homoFunctionTail {α : Type} [LinearOrderedField α] (ref : RegionNode) (x : ℕ → α) :
    List RegionNode → Except String (List (ℕ × α))
  | [] => Except.ok []
  | rn :: rest =>
    match rn.rtype with
    | RegionType.Semiconductor =>
      (homoFunctionTail ref x rest).map (fun es =>
        (rn.globalOff,     x (rn.localOff)     - x (ref.localOff)) ::
        (rn.globalOff + 1, x (rn.localOff + 1) - x (ref.localOff + 1)) ::
        (rn.globalOff + 2, x (rn.localOff + 2) - x (ref.localOff + 2)) :: es)
    | RegionType.Insulator =>
      (homoFunctionTail ref x rest).map (fun es =>
        (rn.globalOff, x (rn.localOff) - x (ref.localOff)) :: es)
    | _ => Except.error "HomoInterfaceBC::DDM1_Function genius_error"

/-- `HomoInterfaceBC::DDM1_Function` at one boundary node; the code asserts
that the reference pair lies in a semiconductor region. -/
def homoFunctionNode {α : Type} [LinearOrderedField α] (x : ℕ → α) :
    List RegionNode → Except String (List (ℕ × α))
  | [] => Except.ok []
  | ref :: rest =>
    if ref.rtype = RegionType.Semiconductor then homoFunctionTail ref x rest
    else Except.error "HomoInterfaceBC::DDM1_Function genius_assert regions0 semiconductor"

/-- `VecSetValues(..., ADD_VALUES)`: each buffered `(row, value)` entry is
added into the vector at its row. -/
def addEntries {α : Type} [LinearOrderedField α]
    (entries : List (ℕ × α)) (r : ℕ → α) : ℕ → α :=
  fun k => r k + ((entries.filter (fun p => decide (p.1 = k))).map Prod.snd).sum

/-- The residual pipeline of `build_petsc_sens_residual` (ebm3.cc lines
946-963) specialised to one homo-interface boundary node: starting from the
region-assembled residual `r`, collect the row-surgery triples from the
boundary's preprocess, apply `VecAddClearRow`, then add the boundary's
replacement equations.  (The final diagonal scaling by `L` is outside this
model.) -/
def homoInterfaceResidual {α : Type} [LinearOrderedField α]
    (pairs : List RegionNode) (x r : ℕ → α) : Except String (ℕ → α) := do
  let sdc ← homoPreprocessNode pairs
  let r1 := vecAddClearRow r sdc.1 sdc.2.1 sdc.2.2
  let es ← homoFunctionNode x pairs
  Except.ok (addEntries es r1)

/-- Observe one component of a fallible residual vector: `some (w k)` on
success, `none` when the assembly aborted. -/
def resEval {α : Type} (e : Except String (ℕ → α)) (k : ℕ) : Option α :=
  match e with
  | Except.ok w => some (w k)
  | Except.error _ => none

/-- `EBM3Solver::set_variables` (ebm3.cc lines 55-70), the work the solver
performs at creation time (`create_solver`): for every semiconductor region
it registers four extra point-centered variables.  It inspects no boundary
condition, has no failure path, and unconditionally returns. -/
def EBM3_set_variables (regions : List (RegionType × List String)) :
    List (RegionType × List String) :=
  regions.map (fun rv =>
    if rv.1 = RegionType.Semiconductor then
      (rv.1, rv.2 ++ ["elec_temperature", "hole_temperature",
                      "elec_temperature.last", "hole_temperature.last"])
    else rv)

/-- The electrode current accumulated by the ohmic boundary
(`OhmicContactBC::EBM3_Function_Preprocess` lines 134-145 and
`EBM3_Function` lines 338-367, 453-455): per boundary node the conduction
current `I = f[global+1] - f[global+2]` is read from the region-assembled
residual before the rows are cleared; when the solve is time dependent the
displacement-current terms `cv_boundary*eps*dEdt` are appended; the sum is
scaled by `z_width()`. -/
def ohmicCurrent {α : Type} [LinearOrderedField α]
    (scale : α) (f : ℕ → α) (nodes : List ℕ) (disp : List α) : α :=
  scale * ((nodes.map (fun g => f (g + 1) - f (g + 2))) ++ disp).sum

/-- The circuit-equation residual assembled at a voltage-driven electrode's
scalar row (`OhmicContactBC::EBM3_Function` lines 467-474 and 496-508): the
per-processor contribution `(L/dt+R)*current` plus the last-processor
contribution `(Ve-Vapp) + (L/dt+R)*C/dt*Ve - (L/dt+R)*C/dt*P - L/dt*(I+Ic)`,
added into the same row. -/
def ohmicVoltageCircuitResidual {α : Type} [LinearOrderedField α]
    (R L C dt Vapp Ve P Iprev Icprev : α)
    (scale : α) (f : ℕ → α) (nodes : List ℕ) (disp : List α) : α :=
  (L/dt + R) * ohmicCurrent scale f nodes disp +
    ((Ve - Vapp) + (L/dt + R)*C/dt*Ve - (L/dt + R)*C/dt*P - L/dt*(Iprev + Icprev))

/-- The circuit-equation residual assembled at a current-driven electrode's
scalar row (`OhmicContactBC::EBM3_Function` lines 476-481 and 510-516): the
per-processor contribution `current` plus the last-processor contribution
`Ic - Iapp`, added into the same row. -/
def ohmicCurrentCircuitResidual {α : Type} [LinearOrderedField α]
    (Iapp Icprev : α) (scale : α) (f : ℕ → α) (nodes : List ℕ) (disp : List α) : α :=
  ohmicCurrent scale f nodes disp + (Icprev - Iapp)

/-- The Jacobian row of the voltage-driven electrode equation
(`OhmicContactBC::EBM3_Jacobian_Preprocess` lines 716-796 and
`EBM3_Jacobian` lines 883-886, 1085-1095, 1199-1206).  `condCols` carries,
for every column of a boundary node or its neighbor, the matrix reads
`A1 = jac[n-row][col]`, `A2 = jac[p-row][col]`; the buffered entry is
`(L/dt+R)*(A1-A2)*current_scale`.  `dispCols` carries the AD derivative of
the displacement current `cv_boundary*eps*dEdt*current_scale`, multiplied by
`L/dt+R` before insertion.  The final entry is `1+(L/dt+R)*C/dt` on the
electrode's own diagonal. -/
def ohmicVoltageJacobianRow {α : Type} [LinearOrderedField α]
    (R L C dt scale : α) (bcOff : ℕ)
    (condCols : List (ℕ × α × α)) (dispCols : List (ℕ × α)) : List (ℕ × α) :=
  condCols.map (fun t => (t.1, (L/dt + R) * (t.2.1 - t.2.2) * scale))
    ++ dispCols.map (fun t => (t.1, (L/dt + R) * t.2))
    ++ [(bcOff, 1 + (L/dt + R)*C/dt)]

/-- The accumulated value of a sparse row at one column (all `ADD_VALUES`
entries targeting that column summed). -/
def rowValueAt {α : Type} [LinearOrderedField α]
    (entries : List (ℕ × α)) (c : ℕ) : α :=
  ((entries.filter (fun p => decide (p.1 = c))).map Prod.snd).sum

/-- One simulation region as seen by the EBM3 solver-level loops: its type,
the advanced-model temperature flags (`enable_Tl/Tn/Tp`), the per-node
variable offsets returned by `ebm_variable_offset`, the number of unknowns
per node (`ebm_n_variables`), and the local offsets of its on-processor
FVM nodes. -/
structure EBMRegion where
  rtype : RegionType
  enTl : Bool
  enTn : Bool
  enTp : Bool
  psiOff : ℕ
  nOff : ℕ
  pOff : ℕ
  TlOff : ℕ
  TnOff : ℕ
  TpOff : ℕ
  nvars : ℕ
  nodes : List ℕ
deriving DecidableEq, Repr

/-- Clamp a slot from below: `if (v[s] < b) v[s] = b`. -/
def clampAt {α : Type} [LinearOrderedField α] (s : ℕ) (b : α) (v : ℕ → α) : ℕ → α :=
  Function.update v s (max (v s) b)

/-- The carrier-temperature rescaling performed for an enabled electron or
hole temperature (`EBM3Solver::projection_positive_density_check` lines
522-543, identical in `potential_damping` lines 286-306): with `c0` the
reference carrier density `oo[n]`, `c1` the already-clamped density `xx[n]`,
`T0 = oo[nT]/c0`, the temperature `T1 = T0*(1-min(c1/c0,2)) + xx[nT]/c0` is
floored at `0.9*T_external` and the slot is overwritten with `T1*c1`. -/
def carrierTempUpdate {α : Type} [LinearOrderedField α]
    (Text : α) (xo : ℕ → α) (cSlot tSlot : ℕ) (v : ℕ → α) : ℕ → α :=
  let c0 := xo cSlot
  let c1 := v cSlot
  let T0 := xo tSlot / c0
  let T1 := T0 * (1 - min (c1/c0) 2) + v tSlot / c0
  let T1 := max T1 (9/10 * Text)
  Function.update v tSlot (T1 * c1)

/-- The per-node body shared by `projection_positive_density_check` (lines
507-543) and the clamping part of `potential_damping` (lines 273-306):
carrier densities are floored at `onePerCMC`, the lattice temperature (if
enabled) is floored at `T_external - 50*K`, and enabled carrier
temperatures undergo the rescaling above.  `xo` is the reference vector
(`oo` for the projection, the previous iterate `xx` for the damping). -/
def projNode {α : Type} [LinearOrderedField α]
    (R : EBMRegion) (onePerCMC Tlb Text : α) (xo : ℕ → α) (off : ℕ) (v : ℕ → α) : ℕ → α :=
  let v := clampAt (off + R.nOff) onePerCMC v
  let v := clampAt (off + R.pOff) onePerCMC v
  let v := if R.enTl then clampAt (off + R.TlOff) Tlb v else v
  let v := if R.enTn then carrierTempUpdate Text xo (off + R.nOff) (off + R.TnOff) v else v
  let v := if R.enTp then carrierTempUpdate Text xo (off + R.pOff) (off + R.TpOff) v else v
  v

/-- Inner loop over the on-processor nodes of one region. -/
def projNodes {α : Type} [LinearOrderedField α]
    (R : EBMRegion) (onePerCMC Tlb Text : α) (xo : ℕ → α) :
    List ℕ → (ℕ → α) → (ℕ → α)
  | [], v => v
  | off :: rest, v =>
    projNodes R onePerCMC Tlb Text xo rest (projNode R onePerCMC Tlb Text xo off v)

/-- `EBM3Solver::projection_positive_density_check` (ebm3.cc lines 477-549):
loop over the regions, apply the clamping body to every on-processor node
of each semiconductor region (other region types are skipped). -/
def projRegions {α : Type} [LinearOrderedField α]
    (onePerCMC Tlb Text : α) (xo : ℕ → α) :
    List EBMRegion → (ℕ → α) → (ℕ → α)
  | [], v => v
  | R :: rest, v =>
    projRegions onePerCMC Tlb Text xo rest
      (if R.rtype = RegionType.Semiconductor
       then projNodes R onePerCMC Tlb Text xo R.nodes v else v)

/-- The search for `dV_max` in `EBM3Solver::potential_damping` (lines
245-271, 310-311): the maximum of `|yy[local+psi]|` over the on-processor
nodes of the semiconductor regions, starting from `0`. -/
def dVmaxNodes {α : Type} [LinearOrderedField α]
    (psiOff : ℕ) (yy : ℕ → α) : List ℕ → α → α
  | [], acc => acc
  | off :: rest, acc => dVmaxNodes psiOff yy rest (max acc |yy (off + psiOff)|)

/-- Loop of `dV_max` over the regions (semiconductor regions only). -/
def dVmaxRegions {α : Type} [LinearOrderedField α]
    (yy : ℕ → α) : List EBMRegion → α → α
  | [], acc => acc
  | R :: rest, acc =>
    dVmaxRegions yy rest
      (if R.rtype = RegionType.Semiconductor
       then dVmaxNodes R.psiOff yy R.nodes acc else acc)

/-- The damped potential update `ww[s] = xx[s] - f*yy[s]` applied to the
psi slot of every on-processor node of the semiconductor regions
(`potential_damping` lines 319-337). -/
def dampPsiNodes {α : Type} [LinearOrderedField α]
    (f : α) (xx yy : ℕ → α) (psiOff : ℕ) : List ℕ → (ℕ → α) → (ℕ → α)
  | [], w => w
  | off :: rest, w =>
    dampPsiNodes f xx yy psiOff rest
      (Function.update w (off + psiOff) (xx (off + psiOff) - f * yy (off + psiOff)))

/-- Region loop of the damped potential update. -/
def dampPsiRegions {α : Type} [LinearOrderedField α]
    (f : α) (xx yy : ℕ → α) : List EBMRegion → (ℕ → α) → (ℕ → α)
  | [], w => w
  | R :: rest, w =>
    dampPsiRegions f xx yy rest
      (if R.rtype = RegionType.Semiconductor
       then dampPsiNodes f xx yy R.psiOff R.nodes w else w)

/-- The damped update of the electrode scalar unknowns performed by the
last processor (`potential_damping` lines 339-349): `ww[a] = xx[a]-f*yy[a]`
for every boundary condition owning an extra array slot. -/
def dampBcOffsets {α : Type} [LinearOrderedField α]
    (f : α) (xx yy : ℕ → α) : List ℕ → (ℕ → α) → (ℕ → α)
  | [], w => w
  | a :: rest, w =>
    dampBcOffsets f xx yy rest (Function.update w a (xx a - f * yy a))

/-- `EBM3Solver::potential_damping` (ebm3.cc lines 234-360).  The first
loop clamps the candidate iterate `ww` (re-using the projection body with
the previous iterate `xx` as reference) while computing `dV_max`; when
`dV_max > 1e-6` the logarithmic factor
`f = log(1+dV_max/Vut)/(dV_max/Vut)` with
`Vut = kb*T_external/e * potential_update` is applied to the semiconductor
potential slots and the electrode scalar slots; otherwise the candidate is
returned with only the clamps applied.  `logF` abstracts the C `log`. -/
def potential_damping {α : Type} [LinearOrderedField α]
    (logF : α → α) (kB Text eC pUpdate onePerCMC Kunit : α)
    (sys : List EBMRegion) (bcOffs : List ℕ) (xx yy ww : ℕ → α) : ℕ → α :=
  let ww1 := projRegions onePerCMC (Text - 50 * Kunit) Text xx sys ww
  let dV := dVmaxRegions yy sys 0
  if 1/1000000 < dV then
    let Vut := kB * Text / eC * pUpdate
    let f := logF (1 + dV / Vut) / (dV / Vut)
    dampBcOffsets f xx yy bcOffs (dampPsiRegions f xx yy sys ww1)
  else ww1

/-- The list of semiconductor potential slots of a system (the slots the
damping loop writes). -/
def psiSlots : List EBMRegion → List ℕ
  | [] => []
  | R :: rest =>
    (if R.rtype = RegionType.Semiconductor
     then R.nodes.map (fun off => off + R.psiOff) else []) ++ psiSlots rest

/-- The lower bounds the projection enforces: carrier densities at least
`onePerCMC` and (when the lattice temperature is solved) `Tl` at least
`T_external - 50*K`, at every on-processor node of every semiconductor
region. -/
def ProjBounds {α : Type} [LinearOrderedField α]
    (oneP Tlb : α) (sys : List EBMRegion) (v : ℕ → α) : Prop :=
  ∀ R ∈ sys, R.rtype = RegionType.Semiconductor → ∀ off ∈ R.nodes,
    oneP ≤ v (off + R.nOff) ∧ oneP ≤ v (off + R.pOff)
      ∧ (R.enTl = true → Tlb ≤ v (off + R.TlOff))

/-- The time-stepping schemes distinguished by `LTE_norm`. -/
inductive TSType where
  | BDF1
  | BDF2
deriving DecidableEq, Repr

/-- The predictor vector `xp` of `EBM3Solver::LTE_norm` (ebm3.cc lines
569-591): first-order extrapolation from `x_n, x_n1` under BDF1,
second-order extrapolation from `x_n, x_n1, x_n2` under BDF2. -/
def ltePredictor {α : Type} [LinearOrderedField α]
    (ts : TSType) (hn hn1 hn2 : α) (x_n x_n1 x_n2 : ℕ → α) : ℕ → α :=
  match ts with
  | TSType.BDF1 => fun k => (1 + hn/hn1) * x_n k + (-(hn/hn1)) * x_n1 k
  | TSType.BDF2 =>
    let cn  := 1 + hn*(hn + 2*hn1 + hn2)/(hn1*(hn1 + hn2))
    let cn1 := -(hn*(hn + hn1 + hn2)/(hn1*hn2))
    let cn2 := hn*(hn + hn1)/(hn2*(hn1 + hn2))
    fun k => cn * x_n k + cn1 * x_n1 k + cn2 * x_n2 k

/-- The raw LTE vector of `EBM3Solver::LTE_norm` before per-variable
scaling: `hn/(hn+hn1)*(x - xp)` under BDF1, `hn/(hn+hn1+hn2)*(x - xp)`
under BDF2. -/
def lteRaw {α : Type} [LinearOrderedField α]
    (ts : TSType) (hn hn1 hn2 : α) (x x_n x_n1 x_n2 : ℕ → α) : ℕ → α :=
  let xp := ltePredictor ts hn hn1 hn2 x_n x_n1 x_n2
  match ts with
  | TSType.BDF1 => fun k => hn/(hn + hn1) * x k + (-(hn/(hn + hn1))) * xp k
  | TSType.BDF2 => fun k => hn/(hn + hn1 + hn2) * x k + (-(hn/(hn + hn1 + hn2))) * xp k

/-- The per-node scaling of the LTE vector for one region (`LTE_norm`
lines 608-665): the potential slot is zeroed; each remaining tracked slot
is divided by the mixed tolerance `eps_r*x[slot] + eps_a`; insulator,
electrode and metal regions only track psi and (optionally) the lattice
temperature. -/
def lteScaleNode {α : Type} [LinearOrderedField α]
    (R : EBMRegion) (epsr epsa : α) (x : ℕ → α) (off : ℕ) (ll : ℕ → α) : ℕ → α :=
  match R.rtype with
  | RegionType.Semiconductor =>
    let ll := Function.update ll (off + R.psiOff) 0
    let ll := Function.update ll (off + R.nOff)
                (ll (off + R.nOff) / (epsr * x (off + R.nOff) + epsa))
    let ll := Function.update ll (off + R.pOff)
                (ll (off + R.pOff) / (epsr * x (off + R.pOff) + epsa))
    let ll := if R.enTl then Function.update ll (off + R.TlOff)
                (ll (off + R.TlOff) / (epsr * x (off + R.TlOff) + epsa)) else ll
    let ll := if R.enTn then Function.update ll (off + R.TnOff)
                (ll (off + R.TnOff) / (epsr * x (off + R.TnOff) + epsa)) else ll
    let ll := if R.enTp then Function.update ll (off + R.TpOff)
                (ll (off + R.TpOff) / (epsr * x (off + R.TpOff) + epsa)) else ll
    ll
  | RegionType.Vacuum => ll
  | _ =>
    let ll := Function.update ll (off + R.psiOff) 0
    if R.enTl then Function.update ll (off + R.TlOff)
      (ll (off + R.TlOff) / (epsr * x (off + R.TlOff) + epsa)) else ll

/-- Node loop of the LTE scaling for one region. -/
def lteScaleNodes {α : Type} [LinearOrderedField α]
    (R : EBMRegion) (epsr epsa : α) (x : ℕ → α) : List ℕ → (ℕ → α) → (ℕ → α)
  | [], ll => ll
  | off :: rest, ll =>
    lteScaleNodes R epsr epsa x rest (lteScaleNode R epsr epsa x off ll)

/-- Region loop of the LTE scaling (a `VacuumRegion` contributes nothing). -/
def lteScaleRegions {α : Type} [LinearOrderedField α]
    (epsr epsa : α) (x : ℕ → α) : List EBMRegion → (ℕ → α) → (ℕ → α)
  | [], ll => ll
  | R :: rest, ll =>
    lteScaleRegions epsr epsa x rest
      (if R.rtype = RegionType.Vacuum then ll
       else lteScaleNodes R epsr epsa x R.nodes ll)

/-- The zeroing of the electrode scalar slots (`LTE_norm` lines 673-681). -/
def lteZeroBc {α : Type} [LinearOrderedField α] :
    List ℕ → (ℕ → α) → (ℕ → α)
  | [], ll => ll
  | a :: rest, ll => lteZeroBc rest (Function.update ll a 0)

/-- The count `N` of error-carrying unknowns (`LTE_norm` lines 638, 662):
each non-vacuum region contributes `(ebm_n_variables()-1)` per on-processor
node. -/
def lteCountN : List EBMRegion → ℕ
  | [] => 0
  | R :: rest =>
    (if R.rtype = RegionType.Vacuum then 0 else (R.nvars - 1) * R.nodes.length)
      + lteCountN rest

/-- `EBM3Solver::LTE_norm` (ebm3.cc lines 556-699): build the predictor and
raw LTE vector, scale it per variable, zero the electrode slots, take the
2-norm over the `totalDofs` local degrees of freedom, and RMS-normalise by
`sqrt N`; when `N = 0` the function returns `1.0` instead.  `sqrtF`
abstracts the C `sqrt` (`VecNorm(NORM_2)` and the explicit
`sqrt(double(N))`). -/
def LTE_norm {α : Type} [LinearOrderedField α]
    (sqrtF : α → α) (ts : TSType) (hn hn1 hn2 epsr epsa : α)
    (sys : List EBMRegion) (bcOffs : List ℕ) (totalDofs : ℕ)
    (x x_n x_n1 x_n2 : ℕ → α) : α :=
  let ll := lteZeroBc bcOffs
              (lteScaleRegions epsr epsa x sys
                (lteRaw ts hn hn1 hn2 x x_n x_n1 x_n2))
  let N := lteCountN sys
  let r := sqrtF (∑ k ∈ Finset.range totalDofs, (ll k)^2)
  if 0 < N then r / sqrtF (N : α) else 1

/-- Modelled from the spec: the adaptive time-step controller that consumes
the RMS-normalised LTE scalar ("used to accept/reject/resize the next time
step") is not among the sampled sources; per the spec the step is accepted
without modification when the scalar does not exceed the unit tolerance
(the relative/absolute tolerances are already folded into the norm). -/
def lteStepAccepted {α : Type} [LinearOrderedField α] (r : α) : Bool :=
  decide (r ≤ 1)

/-- One region edge as visited by the edge loop of
`SemiconductorSimulationRegion::DDM1_Function` (lines 126-209): endpoint
node ids, the control-volume surface area between them, their distance and
the permittivities of the two endpoint node data. -/
structure MeshEdge (α : Type) where
  n1 : ℕ
  n2 : ℕ
  area : α
  len : α
  eps1 : α
  eps2 : α
deriving DecidableEq, Repr

/-- One visit of a cell to one of its edges in the cell loop of
`DDM1_Function` (lines 382-515): the index of the region edge, the
orientation flag `inverse = (id(n1) > id(n2))`, the endpoints as ordered by
the cell, the truncated partial area, and the interpolated mobilities. -/
structure CellEdgeIncidence (α : Type) where
  edgeIndex : ℕ
  inverse : Bool
  m1 : ℕ
  m2 : ℕ
  tArea : α
  mun : α
  mup : α
deriving DecidableEq, Repr

/-- The Poisson edge flux of `DDM1_Function` (line 195):
`f = 0.5*(eps1+eps2) * cv_surface_area * (V2-V1) / distance`. -/
def poissonFlux {α : Type} [LinearOrderedField α]
    (e : MeshEdge α) (V : ℕ → α) : α :=
  (e.eps1 + e.eps2)/2 * e.area * (V e.n2 - V e.n1) / e.len

/-- The two Poisson entries an edge contributes (lines 197-208): `+f` to
node 1's row and `-f` to node 2's row, each guarded by processor
ownership.  Rows use the DDM1 layout `gOff(node)+0/1/2`. -/
def poissonEdgeEntries {α : Type} [LinearOrderedField α]
    (gOff : ℕ → ℕ) (onProc : ℕ → Bool) (V : ℕ → α) (e : MeshEdge α) :
    List (ℕ × α) :=
  (if onProc e.n1 then [(gOff e.n1, poissonFlux e V)] else [])
    ++ (if onProc e.n2 then [(gOff e.n2, -poissonFlux e V)] else [])

/-- The Scharfetter-Gummel buffers precomputed once per region edge
(`DDM1_Function` lines 119-188).  The closed forms `In_dd`/`Ip_dd` live in
`jflux1.h`, which is not among the sampled sources; they enter as the
abstract per-edge functions `JnOf`/`JpOf` of the edge and the nodal
unknowns, which is all the conservation property depends on. -/
def sgEdgeBuffer {α : Type} [LinearOrderedField α]
    (JnOf : MeshEdge α → α) (edges : List (MeshEdge α)) : List α :=
  edges.map JnOf

/-- Value `Jn = mun * (inverse ? -Jn_edge_buffer[edge_index] :
Jn_edge_buffer[edge_index])` of `DDM1_Function` line 478: the single
buffered edge current, orientation-flipped and mobility-scaled. -/
def sgJnValue {α : Type} [LinearOrderedField α]
    (JnB : List α) (c : CellEdgeIncidence α) : α :=
  c.mun * (if c.inverse then -(JnB.getD c.edgeIndex 0) else JnB.getD c.edgeIndex 0)

/-- Value `Jp = mup * (inverse ? -Jp_edge_buffer[edge_index] :
Jp_edge_buffer[edge_index])` of `DDM1_Function` line 479. -/
def sgJpValue {α : Type} [LinearOrderedField α]
    (JpB : List α) (c : CellEdgeIncidence α) : α :=
  c.mup * (if c.inverse then -(JpB.getD c.edgeIndex 0) else JpB.getD c.edgeIndex 0)

/-- The four continuity entries one cell-edge visit contributes
(`DDM1_Function` lines 477-515): the buffered edge current is looked up by
edge index, negated when the cell orients the edge inversely, scaled by the
interpolated mobility, and added with opposite signs to the electron/hole
rows of the two endpoints. -/
def sgIncidenceEntries {α : Type} [LinearOrderedField α]
    (gOff : ℕ → ℕ) (onProc : ℕ → Bool) (JnB JpB : List α)
    (c : CellEdgeIncidence α) : List (ℕ × α) :=
  let Jn := sgJnValue JnB c
  let Jp := sgJpValue JpB c
  (if onProc c.m1 then [(gOff c.m1 + 1, Jn * c.tArea), (gOff c.m1 + 2, -(Jp * c.tArea))] else [])
    ++ (if onProc c.m2 then [(gOff c.m2 + 1, -(Jn * c.tArea)), (gOff c.m2 + 2, Jp * c.tArea)] else [])

/-- All edge-wise flux entries of one `DDM1_Function` call: the Poisson
edge loop followed by the Scharfetter-Gummel scatter of the cell loop.
The node-wise charge/recombination terms and the flag-guarded
band-to-band-tunneling / impact-ionization generation terms (lines
517-605, 620-693) are the "sources" the conservation claim excludes and
are not part of the edge-wise contributions modelled here. -/
def ddm1EdgeEntries {α : Type} [LinearOrderedField α]
    (gOff : ℕ → ℕ) (onProc : ℕ → Bool) (V : ℕ → α)
    (JnOf JpOf : MeshEdge α → α)
    (edges : List (MeshEdge α)) (incs : List (CellEdgeIncidence α)) :
    List (ℕ × α) :=
  edges.flatMap (poissonEdgeEntries gOff onProc V)
    ++ incs.flatMap (sgIncidenceEntries gOff onProc (sgEdgeBuffer JnOf edges) (sgEdgeBuffer JpOf edges))

/-! Concrete instances used by the witnesses and counterexamples below. -/

/-- A residual vector with rows `10, 5, 7, 0, 0, ...`. -/
def sampleVec : ℕ → ℚ :=
  fun k => if k = 0 then 10 else if k = 1 then 5 else if k = 2 then 7 else 0

/-- The identity-valued vector `k ↦ k` over `ℚ`. -/
def idVec : ℕ → ℚ := fun k => (k : ℚ)

/-- The two coincident semiconductor pairs of the two-region potential
continuity scenario: the reference pair owns rows/slots `0,1,2`, the second
pair rows/slots `3,4,5`. -/
def scenarioPairs : List RegionNode :=
  [⟨RegionType.Semiconductor, 0, 0⟩, ⟨RegionType.Semiconductor, 3, 3⟩]

/-- The scenario unknowns: region-0 potential `1.0` (slot 0), region-1
potential `0.3` (slot 3), all carrier slots `1`. -/
def scenarioX : ℕ → ℚ :=
  fun k => if k = 0 then 1 else if k = 3 then 3/10 else 1

/-- The scenario unknowns with both potentials forced equal to `1.0`. -/
def scenarioXeq : ℕ → ℚ :=
  fun k => if k = 0 then 1 else if k = 3 then 1 else 1

/-- A region-assembled residual whose merged reference row is nonzero. -/
def scenarioR : ℕ → ℚ := fun k => if k = 0 then 1 else 0

/-- A boundary-node pair list whose second region type has no coupling
rule in the homo-interface switch. -/
def badPairs : List RegionNode :=
  [⟨RegionType.Semiconductor, 0, 0⟩, ⟨RegionType.Metal, 3, 3⟩]

/-- A semiconductor region with the electron temperature enabled: one node
with slots psi=0, n=1, p=2, nTn=3. -/
def tnRegion : EBMRegion :=
  ⟨RegionType.Semiconductor, false, true, false, 0, 1, 2, 9, 3, 4, 4, [0]⟩

/-- Reference (last accepted) state for the carrier-temperature example:
`n0 = 2`, energy slot `2` (so `T0 = 1`). -/
def tnXo : ℕ → ℚ := fun k => if k = 1 then 2 else if k = 3 then 2 else 0

/-- Candidate state for the carrier-temperature example: `n = 4`, `p = 1`,
energy slot `10`. -/
def tnX : ℕ → ℚ :=
  fun k => if k = 1 then 4 else if k = 2 then 1 else if k = 3 then 10 else 0

/-- A drift-diffusion-style semiconductor region (both carrier
temperatures disabled, lattice temperature enabled). -/
def ddRegion : EBMRegion :=
  ⟨RegionType.Semiconductor, true, false, false, 0, 1, 2, 3, 4, 5, 4, [0]⟩

/-- A minimal semiconductor region for the damping examples: one node,
slots psi=0, n=1, p=2, all temperatures disabled. -/
def dampRegion : EBMRegion :=
  ⟨RegionType.Semiconductor, false, false, false, 0, 1, 2, 3, 4, 5, 3, [0]⟩

/-- An insulator region whose single node's potential lives at slot 3. -/
def insRegion : EBMRegion :=
  ⟨RegionType.Insulator, false, false, false, 0, 1, 2, 3, 4, 5, 1, [3]⟩

/-- Previous iterate for the damping guard example (psi `0`, carriers `1`). -/
def dampXX {α : Type} [LinearOrderedField α] : ℕ → α :=
  fun k => if k = 0 then 0 else 1

/-- Newton direction for the guard example: psi update `1e-7`. -/
def dampYY {α : Type} [LinearOrderedField α] : ℕ → α :=
  fun k => if k = 0 then 1/10000000 else 0

/-- Candidate iterate `xx - yy` for the guard example. -/
def dampWW {α : Type} [LinearOrderedField α] : ℕ → α :=
  fun k => if k = 0 then -(1/10000000) else 1

/-- Previous iterate for the scope example (both potentials `0`). -/
def dampXX2 {α : Type} [LinearOrderedField α] : ℕ → α :=
  fun k => if k = 0 then 0 else if k = 3 then 0 else 1

/-- Newton direction for the scope example: semiconductor psi update `1/2`,
insulator psi update `2`. -/
def dampYY2 {α : Type} [LinearOrderedField α] : ℕ → α :=
  fun k => if k = 0 then 1/2 else if k = 3 then 2 else 0

/-- Candidate iterate for the scope example (insulator psi slot `7`). -/
def dampWW2 {α : Type} [LinearOrderedField α] : ℕ → α :=
  fun k => if k = 3 then 7 else 1

/-- A concrete stand-in for the Scharfetter-Gummel electron flux. -/
def qJn : MeshEdge ℚ → ℚ := fun e => e.area - e.len

/-- A concrete stand-in for the Scharfetter-Gummel hole flux. -/
def qJp : MeshEdge ℚ → ℚ := fun e => e.eps1 * e.eps2

/-- The 2-node, 1-edge mesh of the conservation scenario. -/
def edgesPair : List (MeshEdge ℚ) := [⟨0, 1, 2, 1, 3, 5⟩]

/-- The single cell-edge visit of the 2-node mesh. -/
def incsPair : List (CellEdgeIncidence ℚ) := [⟨0, false, 0, 1, 2, 1, 1⟩]

/-- The 4-node closed loop of the conservation scenario. -/
def edgesLoop : List (MeshEdge ℚ) :=
  [⟨0, 1, 1, 1, 1, 1⟩, ⟨1, 2, 1, 1, 1, 1⟩, ⟨2, 3, 1, 1, 1, 1⟩, ⟨3, 0, 1, 1, 1, 1⟩]

/-- Cell-edge visits of the loop, one per edge, with one inverted
orientation. -/
def incsLoop : List (CellEdgeIncidence ℚ) :=
  [⟨0, false, 0, 1, 1, 1, 2⟩, ⟨1, false, 1, 2, 1, 2, 1⟩,
   ⟨2, true, 3, 2, 1, 1, 1⟩, ⟨3, false, 3, 0, 1, 1, 1⟩]

/-- Previous iterate for the damping witness. -/
def wXX : ℕ → ℚ := fun k => if k = 0 then 10 else 5

/-- Newton direction for the damping witness: psi update `1`. -/
def wYY : ℕ → ℚ := fun k => if k = 0 then 1 else 0

/-- Candidate iterate for the damping witness. -/
def wWW : ℕ → ℚ := fun _ => 1

/-! Theorems.  Each claim of the specification is settled below; helper
lemmas precede the claim theorems they support. -/

theorem filterSnd_nil {l : List (ℕ × ℕ)} {c : ℕ}
    (h : ∀ q ∈ l, q.2 ≠ c) :
    l.filter (fun p => decide (p.2 = c)) = [] := by
  rw [List.filter_eq_nil_iff]
  intro q hq
  simpa using h q hq

theorem filterSnd_single {l : List (ℕ × ℕ)}
    (hn : (l.map Prod.snd).Nodup) {p : ℕ × ℕ} (hp : p ∈ l) :
    l.filter (fun q => decide (q.2 = p.2)) = [p] := by
  induction l with
  | nil => cases hp
  | cons a t ih =>
    simp only [List.map_cons, List.nodup_cons, List.mem_map] at hn
    rcases List.mem_cons.mp hp with h | h
    · subst h
      rw [List.filter_cons_of_pos (by simp)]
      have ht : ∀ q ∈ t, q.2 ≠ p.2 := fun q hq hEq => hn.1 ⟨q, hq, hEq⟩
      rw [filterSnd_nil ht]
    · have hne : a.2 ≠ p.2 := fun hEq => hn.1 ⟨p, h, hEq.symm⟩
      rw [List.filter_cons_of_neg (by simpa using hne)]
      exact ih hn.2 h

/-- C1: the claim asserts `result[dst] = original[dst] + original[src]` for
every `(src, dst)` pair of an arbitrary row-surgery triple list, but when
two pairs share one destination row (as happens whenever three or more
regions meet at one interface node) the destination accumulates both
sources; at the vector `(10, 5, 7, 0, ...)` with pairs `(1,0), (2,0)` the
destination row holds `22`, not `10 + 5`. -/
theorem vecAddClearRow_dup_dst_counterexample :
    vecAddClearRow sampleVec [1, 2] [0, 0] [1, 2] 0 ≠ sampleVec 0 + sampleVec 1 := by
  simp [vecAddClearRow, sampleVec, List.zip, List.zipWith, List.filter]

/-- C1 (amended): for a row-surgery triple list in which every destination
row occurs in exactly one pair and no destination row is itself cleared,
the surged vector satisfies `result[dst] = original[dst] + original[src]`
for every pair and `result[row] = 0` for every cleared row. -/
theorem vecAddClearRow_row_surgery {α : Type} [LinearOrderedField α]
    (v : ℕ → α) (src dst clear : List ℕ)
    (hlen : src.length = dst.length)
    (hnodup : dst.Nodup)
    (hdc : ∀ d ∈ dst, d ∉ clear) :
    (∀ p ∈ src.zip dst, vecAddClearRow v src dst clear p.2 = v p.2 + v p.1)
    ∧ (∀ c ∈ clear, vecAddClearRow v src dst clear c = 0) := by
  constructor
  · rintro ⟨s, d⟩ hp
    have hd : d ∈ dst := (List.of_mem_zip hp).2
    unfold vecAddClearRow
    rw [if_neg (hdc _ hd)]
    have hmap : (src.zip dst).map Prod.snd = dst :=
      List.map_snd_zip src dst (le_of_eq hlen.symm)
    have hfil : (src.zip dst).filter (fun q => decide (q.2 = d)) = [(s, d)] :=
      filterSnd_single (by rw [hmap]; exact hnodup) hp
    rw [hfil]
    simp
  · intro c hc
    unfold vecAddClearRow
    rw [if_pos hc]

/-- C1 witness: the amended row-surgery statement evaluated on the vector
`k ↦ k` with pairs `(3,0), (4,1)` and cleared rows `3, 4`. -/
theorem vecAddClearRow_row_surgery_witness :
    vecAddClearRow idVec [3, 4] [0, 1] [3, 4] 0 = idVec 0 + idVec 3
    ∧ vecAddClearRow idVec [3, 4] [0, 1] [3, 4] 3 = 0 := by
  have h := vecAddClearRow_row_surgery idVec [3, 4] [0, 1] [3, 4]
    (by decide) (by decide) (by decide)
  exact ⟨h.1 (3, 0) (by decide), h.2 3 (by decide)⟩

/-- C2: in the two-region potential-continuity scenario (reference-region
potential `1.0` at slot 0, second-region potential `0.3` at slot 3) the
boundary-assembled residual at the coupling row is `0.3 - 1.0 = -0.7`, not
`1.0 - 0.3 = 0.7` as claimed; moreover the row that vanishes at equal
unknowns is the second (non-reference) pair's row — the reference pair's
row keeps the merged bulk contributions and is nonzero at equal unknowns
for a nonzero region-assembled residual. -/
theorem homoInterface_scenario_counterexample :
    resEval (homoInterfaceResidual scenarioPairs scenarioX (fun _ => 0)) 3
        = some (-(7/10))
    ∧ resEval (homoInterfaceResidual scenarioPairs scenarioX (fun _ => 0)) 3
        ≠ some (7/10)
    ∧ resEval (homoInterfaceResidual scenarioPairs scenarioXeq scenarioR) 0
        ≠ some 0 := by
  refine ⟨?_, ?_, ?_⟩ <;>
    simp [homoInterfaceResidual, homoPreprocessNode, homoPreprocessTail,
          homoFunctionNode, homoFunctionTail, vecAddClearRow, addEntries,
          resEval, scenarioPairs, scenarioX, scenarioXeq, scenarioR,
          List.zip, List.zipWith, List.filter, Except.map, Except.bind, bind] <;>
    norm_num

/-- C2 (amended): at a homogeneous interface node shared by two
semiconductor pairs, after row surgery and boundary assembly the
non-reference pair's rows hold the equality equations
`x[other] - x[reference]` for each of the three unknowns — hence they
vanish exactly when both regions' unknowns are equal, for arbitrary equal
values and arbitrary region-assembled residuals; in the scenario the
coupling row holds `0.3 - 1.0 = -0.7`. -/
theorem homoInterface_coupling_rows {α : Type} [LinearOrderedField α]
    (ref rn : RegionNode) (x r : ℕ → α)
    (h0 : ref.rtype = RegionType.Semiconductor)
    (h1 : rn.rtype = RegionType.Semiconductor) :
    (∀ k, k < 3 → resEval (homoInterfaceResidual [ref, rn] x r) (rn.globalOff + k)
        = some (x (rn.localOff + k) - x (ref.localOff + k)))
    ∧ ((∀ k, k < 3 → x (rn.localOff + k) = x (ref.localOff + k)) →
        ∀ k, k < 3 → resEval (homoInterfaceResidual [ref, rn] x r) (rn.globalOff + k)
          = some 0) := by
  have main : ∀ k, k < 3 →
      resEval (homoInterfaceResidual [ref, rn] x r) (rn.globalOff + k)
        = some (x (rn.localOff + k) - x (ref.localOff + k)) := by
    intro k hk
    interval_cases k <;>
      simp [homoInterfaceResidual, homoPreprocessNode, homoPreprocessTail,
            homoFunctionNode, homoFunctionTail, vecAddClearRow, addEntries,
            resEval, h0, h1, List.zip, List.zipWith, List.filter,
            Except.map, Except.bind, bind]
  refine ⟨main, fun heq k hk => ?_⟩
  rw [main k hk, heq k hk, sub_self]

/-- C2 witness: the amended statement evaluated on the scenario pair list
with both regions' unknowns equal — the coupling row evaluates to `0`. -/
theorem homoInterface_coupling_rows_witness :
    resEval (homoInterfaceResidual scenarioPairs scenarioXeq scenarioR) (3 + 0)
      = some 0 := by
  have h := homoInterface_coupling_rows
    ⟨RegionType.Semiconductor, 0, 0⟩ ⟨RegionType.Semiconductor, 3, 3⟩
    scenarioXeq scenarioR rfl rfl
  exact h.2 (by intro k hk; interval_cases k <;> simp [scenarioXeq]) 0 (by omega)

theorem homoPreprocessTail_error (ref : RegionNode) (rest : List RegionNode)
    (h : ∃ rn ∈ rest, rn.rtype ≠ RegionType.Semiconductor
          ∧ rn.rtype ≠ RegionType.Insulator) :
    ∃ msg, homoPreprocessTail ref rest = Except.error msg := by
  induction rest with
  | nil => rcases h with ⟨rn, hmem, _⟩; cases hmem
  | cons a t ih =>
    rcases h with ⟨rn, hmem, hbad⟩
    rcases List.mem_cons.mp hmem with heq | hmem'
    · subst heq
      cases ha : rn.rtype <;>
        simp [homoPreprocessTail, ha] <;> simp [ha] at hbad
    · obtain ⟨msg, hmsg⟩ := ih ⟨rn, hmem', hbad⟩
      cases ha : a.rtype <;>
        simp [homoPreprocessTail, ha, hmsg, Except.map]

/-- C9: the claim locates the failure at setup time, but the sampled setup
path (`EBM3Solver::create_solver` → `set_variables`) performs no boundary
validation whatsoever and cannot fail: on a configuration whose interface
references a metal region — a combination with no coupling rule —
`set_variables` completes normally while the fatal `genius_error` is raised
only once the boundary preprocess runs inside the residual assembly of a
solve. -/
theorem boundaryConfig_setup_counterexample :
    homoPreprocessNode badPairs
        = Except.error "HomoInterfaceBC::DDM1_Function_Preprocess genius_error"
    ∧ resEval (homoInterfaceResidual badPairs idVec idVec) 0 = none
    ∧ EBM3_set_variables [(RegionType.Semiconductor, []), (RegionType.Metal, [])]
        = [(RegionType.Semiconductor,
            ["elec_temperature", "hole_temperature",
             "elec_temperature.last", "hole_temperature.last"]),
           (RegionType.Metal, [])] := by
  exact ⟨rfl, rfl, rfl⟩

/-- C9 (amended): a boundary node referencing a region-type combination
with no coupling rule is indeed fatal, but the failure is raised by
`genius_error()` inside the boundary's preprocess during the residual
assembly of a solve (within `build_petsc_sens_residual`), not at setup
time: the whole residual pipeline aborts with an error for any unknowns
and any region-assembled residual. -/
theorem homoInterface_unhandled_region_fatal {α : Type} [LinearOrderedField α]
    (ref : RegionNode) (rest : List RegionNode) (x r : ℕ → α)
    (h : ∃ rn ∈ rest, rn.rtype ≠ RegionType.Semiconductor
          ∧ rn.rtype ≠ RegionType.Insulator) :
    ∃ msg, homoInterfaceResidual (ref :: rest) x r = Except.error msg := by
  obtain ⟨msg, hmsg⟩ := homoPreprocessTail_error ref rest h
  exact ⟨msg, by simp [homoInterfaceResidual, homoPreprocessNode, hmsg,
                       Except.bind, bind]⟩

/-- C9 witness: the fatal-at-assembly statement evaluated on the
semiconductor/metal configuration. -/
theorem homoInterface_unhandled_region_fatal_witness :
    ∃ msg, homoInterfaceResidual badPairs idVec idVec = Except.error msg := by
  exact homoInterface_unhandled_region_fatal
    ⟨RegionType.Semiconductor, 0, 0⟩ [⟨RegionType.Metal, 3, 3⟩] idVec idVec
    ⟨⟨RegionType.Metal, 3, 3⟩, by decide, by decide, by decide⟩

theorem rowValueAt_append {α : Type} [LinearOrderedField α]
    (l1 l2 : List (ℕ × α)) (c : ℕ) :
    rowValueAt (l1 ++ l2) c = rowValueAt l1 c + rowValueAt l2 c := by
  simp [rowValueAt, List.filter_append]

theorem rowValueAt_zero_entries {α : Type} [LinearOrderedField α]
    {l : List (ℕ × α)} (h : ∀ p ∈ l, p.2 = 0) (c : ℕ) :
    rowValueAt l c = 0 := by
  refine List.sum_eq_zero ?_
  intro v hv
  obtain ⟨p, hp, hpv⟩ := List.mem_map.mp hv
  exact hpv ▸ h p (List.mem_of_mem_filter hp)

theorem rowValueAt_single {α : Type} [LinearOrderedField α]
    (a : ℕ) (w : α) (c : ℕ) :
    rowValueAt [(a, w)] c = if c = a then w else 0 := by
  by_cases h : a = c
  · subst h; simp [rowValueAt]
  · simp [rowValueAt, h, Ne.symm h]

/-- C3: the voltage-driven electrode equation.  (i) In general the
assembled residual at the electrode's scalar row equals
`(L/dt+R)*I + (Ve-Vapp) + (L/dt+R)*(C/dt)*(Ve-V_prev) - (L/dt)*(I_prev+I_cap_prev)`
with `I` the accumulated conduction-plus-displacement current;
(ii) with `R = L = C = 0` and `Vapp = 5` it reduces to `Ve - 5`,
whatever current the boundary carries; (iii) in that configuration the
electrode equation's Jacobian row accumulates to `1` on the electrode's
own diagonal and `0` at every other column. -/
theorem ohmicVoltageCircuit_equation {α : Type} [LinearOrderedField α]
    (R L C dt Vapp Ve P Iprev Icprev scale : α)
    (f : ℕ → α) (nodes : List ℕ) (disp : List α) :
    (ohmicVoltageCircuitResidual R L C dt Vapp Ve P Iprev Icprev scale f nodes disp
      = (L/dt + R) * ohmicCurrent scale f nodes disp + (Ve - Vapp)
        + (L/dt + R)*(C/dt)*(Ve - P) - (L/dt)*(Iprev + Icprev))
    ∧ (ohmicVoltageCircuitResidual 0 0 0 dt 5 Ve P Iprev Icprev scale f nodes disp
        = Ve - 5)
    ∧ (∀ (bcOff col : ℕ) (condCols : List (ℕ × α × α)) (dispCols : List (ℕ × α)),
        rowValueAt (ohmicVoltageJacobianRow 0 0 0 dt scale bcOff condCols dispCols) col
          = if col = bcOff then 1 else 0) := by
  refine ⟨?_, ?_, ?_⟩
  · unfold ohmicVoltageCircuitResidual
    ring
  · unfold ohmicVoltageCircuitResidual
    simp [zero_div]
  · intro bcOff col condCols dispCols
    unfold ohmicVoltageJacobianRow
    rw [rowValueAt_append, rowValueAt_append, rowValueAt_single]
    rw [rowValueAt_zero_entries (l := condCols.map _) ?hc col,
        rowValueAt_zero_entries (l := dispCols.map _) ?hd col]
    · simp [zero_div]
    case hc =>
      intro p hp
      obtain ⟨t, ht, hpt⟩ := List.mem_map.mp hp
      simp [← hpt, zero_div]
    case hd =>
      intro p hp
      obtain ⟨t, ht, hpt⟩ := List.mem_map.mp hp
      simp [← hpt, zero_div]

/-- C4: the claim states the current-driven electrode residual equals
`I_cap - I_app` alone, but `EBM3_Function` also adds the accumulated
boundary current into the same row (code comment line 1211:
`f_ext = current + Ic - Iapp`); with one boundary node carrying conduction
current `5 - 7 = -2` and `Iapp = Ic = 0` the assembled residual is `-2`,
not `0`. -/
theorem ohmicCurrentCircuit_counterexample :
    ohmicCurrentCircuitResidual (0 : ℚ) 0 1 sampleVec [0] [] ≠ 0 - 0 := by
  simp [ohmicCurrentCircuitResidual, ohmicCurrent, sampleVec]
  norm_num

/-- C4 (amended): the residual assembled at a current-driven electrode's
scalar row equals the accumulated conduction-plus-displacement current of
the boundary plus the previous-step capacitor current minus the applied
current, `I + I_cap - I_app`. -/
theorem ohmicCurrentCircuit_equation {α : Type} [LinearOrderedField α]
    (Iapp Icprev scale : α) (f : ℕ → α) (nodes : List ℕ) (disp : List α) :
    ohmicCurrentCircuitResidual Iapp Icprev scale f nodes disp
      = scale * ((nodes.map (fun g => f (g + 1) - f (g + 2))).sum + disp.sum)
        + Icprev - Iapp := by
  unfold ohmicCurrentCircuitResidual ohmicCurrent
  rw [List.sum_append]
  ring

theorem clampAt_le_apply {α : Type} [LinearOrderedField α]
    (t : ℕ) (b : α) (v : ℕ → α) (s : ℕ) : v s ≤ clampAt t b v s := by
  unfold clampAt
  by_cases h : s = t
  · subst h; simp [Function.update_same]
  · simp [Function.update_noteq h]

theorem projNode_le {α : Type} [LinearOrderedField α]
    {R : EBMRegion} (hTn : R.enTn = false) (hTp : R.enTp = false)
    (oneP Tlb Text : α) (xo : ℕ → α) (off : ℕ) (v : ℕ → α) (s : ℕ) :
    v s ≤ projNode R oneP Tlb Text xo off v s := by
  unfold projNode
  rw [hTn, hTp]
  simp only [if_false, Bool.false_eq_true]
  by_cases hTl : R.enTl
  · rw [if_pos hTl]
    exact le_trans (clampAt_le_apply _ _ _ _)
      (le_trans (clampAt_le_apply _ _ _ _) (clampAt_le_apply _ _ _ _))
  · rw [if_neg hTl]
    exact le_trans (clampAt_le_apply _ _ _ _) (clampAt_le_apply _ _ _ _)

theorem projNodes_le {α : Type} [LinearOrderedField α]
    {R : EBMRegion} (hTn : R.enTn = false) (hTp : R.enTp = false)
    (oneP Tlb Text : α) (xo : ℕ → α) (ns : List ℕ) (v : ℕ → α) (s : ℕ) :
    v s ≤ projNodes R oneP Tlb Text xo ns v s := by
  induction ns generalizing v with
  | nil => exact le_rfl
  | cons off rest ih =>
    exact le_trans (projNode_le hTn hTp oneP Tlb Text xo off v s) (ih _)

theorem projRegions_le {α : Type} [LinearOrderedField α]
    {sys : List EBMRegion}
    (hflags : ∀ R ∈ sys, R.enTn = false ∧ R.enTp = false)
    (oneP Tlb Text : α) (xo : ℕ → α) (v : ℕ → α) (s : ℕ) :
    v s ≤ projRegions oneP Tlb Text xo sys v s := by
  induction sys generalizing v with
  | nil => exact le_rfl
  | cons R rest ih =>
    have hR := hflags R (List.mem_cons_self R rest)
    have hrest : ∀ Q ∈ rest, Q.enTn = false ∧ Q.enTp = false :=
      fun Q hQ => hflags Q (List.mem_cons_of_mem R hQ)
    refine le_trans ?_ (ih hrest _)
    by_cases hty : R.rtype = RegionType.Semiconductor
    · rw [if_pos hty]
      exact projNodes_le hR.1 hR.2 oneP Tlb Text xo R.nodes v s
    · rw [if_neg hty]

theorem projNode_establishes {α : Type} [LinearOrderedField α]
    {R : EBMRegion} (hTn : R.enTn = false) (hTp : R.enTp = false)
    (oneP Tlb Text : α) (xo : ℕ → α) (off : ℕ) (v : ℕ → α) :
    oneP ≤ projNode R oneP Tlb Text xo off v (off + R.nOff)
    ∧ oneP ≤ projNode R oneP Tlb Text xo off v (off + R.pOff)
    ∧ (R.enTl = true → Tlb ≤ projNode R oneP Tlb Text xo off v (off + R.TlOff)) := by
  unfold projNode
  rw [hTn, hTp]
  simp only [if_false, Bool.false_eq_true]
  have hn : oneP ≤ clampAt (off + R.nOff) oneP v (off + R.nOff) := by
    unfold clampAt; simp [Function.update_same]
  have hp : oneP ≤ clampAt (off + R.pOff) oneP (clampAt (off + R.nOff) oneP v) (off + R.pOff) := by
    unfold clampAt; simp [Function.update_same]
  by_cases hTl : R.enTl
  · rw [if_pos hTl]
    refine ⟨?_, ?_, fun _ => ?_⟩
    · exact le_trans hn (le_trans (clampAt_le_apply _ _ _ _) (clampAt_le_apply _ _ _ _))
    · exact le_trans hp (clampAt_le_apply _ _ _ _)
    · unfold clampAt; simp [Function.update_same]
  · rw [if_neg hTl]
    exact ⟨le_trans hn (clampAt_le_apply _ _ _ _), hp, fun hc => absurd hc hTl⟩

theorem projNodes_establishes {α : Type} [LinearOrderedField α]
    {R : EBMRegion} (hTn : R.enTn = false) (hTp : R.enTp = false)
    (oneP Tlb Text : α) (xo : ℕ → α) (ns : List ℕ) (v : ℕ → α) :
    ∀ off ∈ ns,
      oneP ≤ projNodes R oneP Tlb Text xo ns v (off + R.nOff)
      ∧ oneP ≤ projNodes R oneP Tlb Text xo ns v (off + R.pOff)
      ∧ (R.enTl = true → Tlb ≤ projNodes R oneP Tlb Text xo ns v (off + R.TlOff)) := by
  induction ns generalizing v with
  | nil => intro off h; cases h
  | cons o rest ih =>
    intro off hoff
    rcases List.mem_cons.mp hoff with heq | hmem
    · subst heq
      have hest := projNode_establishes hTn hTp oneP Tlb Text xo off v
      exact ⟨le_trans hest.1 (projNodes_le hTn hTp _ _ _ _ _ _ _),
             le_trans hest.2.1 (projNodes_le hTn hTp _ _ _ _ _ _ _),
             fun hc => le_trans (hest.2.2 hc) (projNodes_le hTn hTp _ _ _ _ _ _ _)⟩
    · exact ih _ off hmem

theorem projRegions_establishes {α : Type} [LinearOrderedField α]
    {sys : List EBMRegion}
    (hflags : ∀ R ∈ sys, R.enTn = false ∧ R.enTp = false)
    (oneP Tlb Text : α) (xo : ℕ → α) (v : ℕ → α) :
    ProjBounds oneP Tlb sys (projRegions oneP Tlb Text xo sys v) := by
  induction sys generalizing v with
  | nil => intro R hR; cases hR
  | cons Q rest ih =>
    have hQ := hflags Q (List.mem_cons_self Q rest)
    have hrest : ∀ P ∈ rest, P.enTn = false ∧ P.enTp = false :=
      fun P hP => hflags P (List.mem_cons_of_mem Q hP)
    intro R hR hty off hoff
    rcases List.mem_cons.mp hR with heq | hmem
    · subst heq
      have hbase :
          oneP ≤ (if R.rtype = RegionType.Semiconductor
                  then projNodes R oneP Tlb Text xo R.nodes v else v) (off + R.nOff)
          ∧ oneP ≤ (if R.rtype = RegionType.Semiconductor
                  then projNodes R oneP Tlb Text xo R.nodes v else v) (off + R.pOff)
          ∧ (R.enTl = true → Tlb ≤ (if R.rtype = RegionType.Semiconductor
                  then projNodes R oneP Tlb Text xo R.nodes v else v) (off + R.TlOff)) := by
        rw [if_pos hty]
        exact projNodes_establishes hQ.1 hQ.2 oneP Tlb Text xo R.nodes v off hoff
      exact ⟨le_trans hbase.1 (projRegions_le hrest _ _ _ _ _ _),
             le_trans hbase.2.1 (projRegions_le hrest _ _ _ _ _ _),
             fun hc => le_trans (hbase.2.2 hc) (projRegions_le hrest _ _ _ _ _ _)⟩
    · exact ih hrest _ R hmem hty off hoff

theorem clampAt_id_of_le {α : Type} [LinearOrderedField α]
    {t : ℕ} {b : α} {v : ℕ → α} (h : b ≤ v t) : clampAt t b v = v := by
  unfold clampAt
  rw [max_eq_left h]
  exact Function.update_eq_self t v

theorem projNode_id_of_bounds {α : Type} [LinearOrderedField α]
    {R : EBMRegion} (hTn : R.enTn = false) (hTp : R.enTp = false)
    {oneP Tlb : α} (Text : α) (xo : ℕ → α) {off : ℕ} {v : ℕ → α}
    (hn : oneP ≤ v (off + R.nOff)) (hp : oneP ≤ v (off + R.pOff))
    (hTl : R.enTl = true → Tlb ≤ v (off + R.TlOff)) :
    projNode R oneP Tlb Text xo off v = v := by
  unfold projNode
  rw [hTn, hTp]
  simp only [if_false, Bool.false_eq_true]
  rw [clampAt_id_of_le hn, clampAt_id_of_le hp]
  by_cases hc : R.enTl
  · rw [if_pos hc, clampAt_id_of_le (hTl hc)]
  · rw [if_neg hc]

theorem projNodes_id_of_bounds {α : Type} [LinearOrderedField α]
    {R : EBMRegion} (hTn : R.enTn = false) (hTp : R.enTp = false)
    {oneP Tlb : α} (Text : α) (xo : ℕ → α) {ns : List ℕ} {v : ℕ → α}
    (h : ∀ off ∈ ns, oneP ≤ v (off + R.nOff) ∧ oneP ≤ v (off + R.pOff)
          ∧ (R.enTl = true → Tlb ≤ v (off + R.TlOff))) :
    projNodes R oneP Tlb Text xo ns v = v := by
  induction ns with
  | nil => rfl
  | cons o rest ih =>
    have ho := h o (List.mem_cons_self o rest)
    unfold projNodes
    rw [projNode_id_of_bounds hTn hTp Text xo ho.1 ho.2.1 ho.2.2]
    exact ih (fun off hoff => h off (List.mem_cons_of_mem o hoff))

theorem projRegions_id_of_bounds {α : Type} [LinearOrderedField α]
    {sys : List EBMRegion}
    (hflags : ∀ R ∈ sys, R.enTn = false ∧ R.enTp = false)
    {oneP Tlb : α} (Text : α) (xo : ℕ → α) {v : ℕ → α}
    (h : ProjBounds oneP Tlb sys v) :
    projRegions oneP Tlb Text xo sys v = v := by
  induction sys with
  | nil => rfl
  | cons Q rest ih =>
    have hQ := hflags Q (List.mem_cons_self Q rest)
    unfold projRegions
    have hstep : (if Q.rtype = RegionType.Semiconductor
        then projNodes Q oneP Tlb Text xo Q.nodes v else v) = v := by
      by_cases hty : Q.rtype = RegionType.Semiconductor
      · rw [if_pos hty]
        exact projNodes_id_of_bounds hQ.1 hQ.2 Text xo
          (h Q (List.mem_cons_self Q rest) hty)
      · rw [if_neg hty]
    rw [hstep]
    exact ih (fun P hP => hflags P (List.mem_cons_of_mem Q hP))
      (fun P hP => h P (List.mem_cons_of_mem Q hP))

/-- C7: with the electron-temperature unknown enabled the projection is not
idempotent: the carrier-temperature step rewrites the energy slot by an
affine expression rather than a clamp, so a second application moves the
value again (`16` becomes `28` on the concrete state below). -/
theorem projection_not_idempotent_counterexample :
    projRegions (1 : ℚ) (1/2) 1 tnXo [tnRegion]
        (projRegions 1 (1/2) 1 tnXo [tnRegion] tnX) 3
      ≠ projRegions 1 (1/2) 1 tnXo [tnRegion] tnX 3 := by
  simp [projRegions, projNodes, projNode, clampAt, carrierTempUpdate,
        tnRegion, tnXo, tnX, Function.update]
  norm_num

/-- C7 (amended): when every semiconductor region solves no carrier
temperatures (`enable_Tn`, `enable_Tp` both off) the projection is a pure
family of lower clamps and applying it twice yields exactly the vector
obtained by applying it once, for every input vector. -/
theorem projection_positive_density_idempotent {α : Type} [LinearOrderedField α]
    (oneP Tlb Text : α) (xo v : ℕ → α) (sys : List EBMRegion)
    (hflags : ∀ R ∈ sys, R.enTn = false ∧ R.enTp = false) :
    projRegions oneP Tlb Text xo sys (projRegions oneP Tlb Text xo sys v)
      = projRegions oneP Tlb Text xo sys v := by
  exact projRegions_id_of_bounds hflags Text xo
    (projRegions_establishes hflags oneP Tlb Text xo v)

/-- C7 witness: idempotence evaluated on a drift-diffusion region and a
concrete state. -/
theorem projection_positive_density_idempotent_witness :
    projRegions (1 : ℚ) (1/2) 1 tnXo [ddRegion]
        (projRegions 1 (1/2) 1 tnXo [ddRegion] tnX)
      = projRegions 1 (1/2) 1 tnXo [ddRegion] tnX := by
  exact projection_positive_density_idempotent 1 (1/2) 1 tnXo tnX [ddRegion]
    (by decide)

theorem dampPsiNodes_eval {α : Type} [LinearOrderedField α]
    (f : α) (xx yy : ℕ → α) (psiOff : ℕ) (ns : List ℕ) (w : ℕ → α) (s : ℕ) :
    dampPsiNodes f xx yy psiOff ns w s
      = if s ∈ ns.map (fun off => off + psiOff) then xx s - f * yy s else w s := by
  induction ns generalizing w with
  | nil => simp [dampPsiNodes]
  | cons off rest ih =>
    simp only [dampPsiNodes, ih, List.map_cons, List.mem_cons]
    by_cases hs : s ∈ rest.map (fun o => o + psiOff)
    · rw [if_pos hs, if_pos (Or.inr hs)]
    · rw [if_neg hs]
      by_cases he : s = off + psiOff
      · rw [if_pos (Or.inl he), ← he, Function.update_same]
      · rw [if_neg (by tauto), Function.update_noteq he]

theorem dampPsiRegions_eval {α : Type} [LinearOrderedField α]
    (f : α) (xx yy : ℕ → α) (sys : List EBMRegion) (w : ℕ → α) (s : ℕ) :
    dampPsiRegions f xx yy sys w s
      = if s ∈ psiSlots sys then xx s - f * yy s else w s := by
  induction sys generalizing w with
  | nil => simp [dampPsiRegions, psiSlots]
  | cons R rest ih =>
    simp only [dampPsiRegions, psiSlots, ih, List.mem_append]
    by_cases hrest : s ∈ psiSlots rest
    · rw [if_pos hrest, if_pos (Or.inr hrest)]
    · rw [if_neg hrest]
      by_cases hty : R.rtype = RegionType.Semiconductor
      · rw [if_pos hty, if_pos hty, dampPsiNodes_eval]
        by_cases hn : s ∈ R.nodes.map (fun off => off + R.psiOff)
        · rw [if_pos hn, if_pos (Or.inl hn)]
        · rw [if_neg hn, if_neg (by tauto)]
      · rw [if_neg hty, if_neg hty]
        rw [if_neg (by simpa using hrest)]

theorem dampBcOffsets_eval {α : Type} [LinearOrderedField α]
    (f : α) (xx yy : ℕ → α) (bs : List ℕ) (w : ℕ → α) (s : ℕ) :
    dampBcOffsets f xx yy bs w s
      = if s ∈ bs then xx s - f * yy s else w s := by
  induction bs generalizing w with
  | nil => simp [dampBcOffsets]
  | cons a rest ih =>
    simp only [dampBcOffsets, ih, List.mem_cons]
    by_cases hs : s ∈ rest
    · rw [if_pos hs, if_pos (Or.inr hs)]
    · rw [if_neg hs]
      by_cases he : s = a
      · rw [if_pos (Or.inl he), ← he, Function.update_same]
      · rw [if_neg (by tauto), Function.update_noteq he]

/-- C5: two ways the claim fails on the code.  (i) The guard: with a single
semiconductor potential unknown whose Newton update is `1e-7`, the computed
`dV_max = 1e-7` does not exceed the hard-wired threshold `1e-6`, so the
candidate is returned unchanged (`-1e-7`) instead of damped by
`f = ln(1+dV_max/V_t)/(dV_max/V_t)` (which would give `-ln(1+1e-7) ≠
-1e-7`).  (ii) The scope: an insulator region's potential unknown is
neither scanned for `dV_max` nor damped — its candidate value `7` survives
untouched, while the claim prescribes `x - f*y = -ln 3 < 0`. -/
theorem potential_damping_claim_counterexample :
    (potential_damping Real.log 1 1 1 1 1 1 [dampRegion] [] dampXX dampYY dampWW 0
        = -(1/10000000))
    ∧ potential_damping Real.log 1 1 1 1 1 1 [dampRegion] [] dampXX dampYY dampWW 0
        ≠ dampXX 0 - Real.log (1 + (1/10000000)/(1*1/1*1))
            / ((1/10000000)/(1*1/1*1)) * dampYY 0
    ∧ (potential_damping Real.log 1 1 1 1 1 1 [dampRegion, insRegion] []
          dampXX2 dampYY2 dampWW2 3 = 7)
    ∧ potential_damping Real.log 1 1 1 1 1 1 [dampRegion, insRegion] []
          dampXX2 dampYY2 dampWW2 3
        ≠ dampXX2 3 - Real.log (1 + 2/(1*1/1*1)) / (2/(1*1/1*1)) * dampYY2 3 := by
  have hdv1 : dVmaxRegions dampYY [dampRegion] (0 : ℝ) = 1/10000000 := by
    simp [dVmaxRegions, dVmaxNodes, dampRegion, dampYY]
  have hval1 :
      potential_damping Real.log 1 1 1 1 1 1 [dampRegion] [] dampXX dampYY dampWW 0
        = -(1/10000000) := by
    unfold potential_damping
    rw [hdv1, if_neg (by norm_num)]
    simp [projRegions, projNodes, projNode, clampAt, dampRegion, dampWW,
          Function.update]
  have hdv2 : dVmaxRegions dampYY2 [dampRegion, insRegion] (0 : ℝ) = 1/2 := by
    simp [dVmaxRegions, dVmaxNodes, dampRegion, insRegion, dampYY2]
  have hval2 :
      potential_damping Real.log 1 1 1 1 1 1 [dampRegion, insRegion] []
          dampXX2 dampYY2 dampWW2 3 = 7 := by
    unfold potential_damping
    rw [hdv2, if_pos (by norm_num)]
    rw [dampBcOffsets_eval, dampPsiRegions_eval]
    rw [if_neg (by simp), if_neg (by simp [psiSlots, dampRegion, insRegion])]
    simp [projRegions, projNodes, projNode, clampAt, dampRegion, insRegion,
          dampWW2, Function.update]
  have hlog : Real.log (1 + 1/10000000) < 1/10000000 := by
    have := Real.log_lt_sub_one_of_pos (x := 1 + 1/10000000) (by norm_num) (by norm_num)
    linarith
  have hlogpos : 0 < Real.log (1 + 1/10000000) := by
    have : (1 : ℝ) < 1 + 1/10000000 := by norm_num
    exact Real.log_pos this
  refine ⟨hval1, ?_, hval2, ?_⟩
  · rw [hval1]
    simp only [dampXX, dampYY, if_pos rfl]
    intro hcontra
    have h2 : Real.log (1 + 1/10000000) / ((1/10000000 : ℝ)/(1*1/1*1))
        * (1/10000000) = Real.log (1 + 1/10000000) := by
      field_simp
    rw [show ((1:ℝ)*1/1*1) = 1 by norm_num] at hcontra
    rw [show ((1:ℝ) + 1/10000000/1) = 1 + 1/10000000 by norm_num] at hcontra
    have h3 : -(1/10000000 : ℝ) = -(Real.log (1 + 1/10000000)) := by
      calc -(1/10000000 : ℝ)
          = 0 - Real.log (1 + 1/10000000) / ((1/10000000)/1) * (1/10000000) := hcontra
        _ = -(Real.log (1 + 1/10000000) / ((1/10000000)) * (1/10000000)) := by
              norm_num
        _ = -(Real.log (1 + 1/10000000)) := by
              congr 1
              field_simp
    have : Real.log (1 + 1/10000000) = 1/10000000 := by linarith [neg_injective h3]
    linarith
  · rw [hval2]
    have h3pos : 0 < Real.log 3 := Real.log_pos (by norm_num)
    simp only [dampXX2, dampYY2]
    norm_num
    intro hcontra
    linarith [hcontra, h3pos]

/-- C5 (amended): `dV_max` is the maximum potential update over the
semiconductor regions only, and only when it exceeds the hard-wired
threshold `1e-6` does the solver apply the single factor
`f = ln(1+dV_max/Vut)/(dV_max/Vut)`, `Vut = kb*T_external/e *
potential_update`, uniformly — to every semiconductor potential unknown
and to every electrode scalar unknown. -/
theorem potential_damping_guarded {α : Type} [LinearOrderedField α]
    (logF : α → α) (kB Text eC pU oneP K : α)
    (sys : List EBMRegion) (bcOffs : List ℕ) (xx yy ww : ℕ → α)
    (hdV : 1/1000000 < dVmaxRegions yy sys 0) :
    ∀ s, s ∈ psiSlots sys ∨ s ∈ bcOffs →
      potential_damping logF kB Text eC pU oneP K sys bcOffs xx yy ww s
        = xx s - (logF (1 + dVmaxRegions yy sys 0 / (kB*Text/eC*pU))
                  / (dVmaxRegions yy sys 0 / (kB*Text/eC*pU))) * yy s := by
  intro s hs
  unfold potential_damping
  rw [if_pos hdV]
  rw [dampBcOffsets_eval, dampPsiRegions_eval]
  by_cases hbc : s ∈ bcOffs
  · rw [if_pos hbc]
  · rw [if_neg hbc]
    rcases hs with hpsi | hbc2
    · rw [if_pos hpsi]
    · exact absurd hbc2 hbc

/-- C5 witness: the guarded-damping statement evaluated on a concrete
system whose maximal potential update is `1`, with an abstract logarithm
`t ↦ t/2`. -/
theorem potential_damping_guarded_witness :
    potential_damping (fun t : ℚ => t/2) 1 1 1 1 1 1 [dampRegion] [9] wXX wYY wWW 0
      = wXX 0 - ((fun t : ℚ => t/2) (1 + dVmaxRegions wYY [dampRegion] 0 / (1*1/1*1))
          / (dVmaxRegions wYY [dampRegion] 0 / (1*1/1*1))) * wYY 0 := by
  exact potential_damping_guarded (fun t : ℚ => t/2) 1 1 1 1 1 1
    [dampRegion] [9] wXX wYY wWW
    (by simp [dVmaxRegions, dVmaxNodes, dampRegion, wYY]; norm_num)
    0 (Or.inl (by simp [psiSlots, dampRegion]))

theorem sum_snd_flatMap_zero {α β : Type} [LinearOrderedField α]
    {l : List β} {f : β → List (ℕ × α)}
    (h : ∀ b ∈ l, ((f b).map Prod.snd).sum = 0) :
    ((l.flatMap f).map Prod.snd).sum = 0 := by
  induction l with
  | nil => simp
  | cons b rest ih =>
    simp only [List.flatMap_cons, List.map_append, List.sum_append]
    rw [h b (List.mem_cons_self b rest),
        ih (fun b2 hb2 => h b2 (List.mem_cons_of_mem b hb2))]
    ring

/-- C6: every edge-wise flux term is scattered with equal magnitude and
opposite sign to the two endpoint control volumes — the Poisson edge loop
adds `+f`/`-f` of one flux value, and each cell-edge visit adds
`±Jn*area` / `∓Jp*area` of the single buffered Scharfetter-Gummel current —
and consequently, for a closed system (every endpoint on-processor, no
source terms), the sum of all edge-wise flux contributions over all control
volumes is zero. -/
theorem ddm1_edge_flux_conservation {α : Type} [LinearOrderedField α]
    (gOff : ℕ → ℕ) (onProc : ℕ → Bool) (V : ℕ → α) (JnOf JpOf : MeshEdge α → α)
    (edges : List (MeshEdge α)) (incs : List (CellEdgeIncidence α))
    (hE : ∀ e ∈ edges, onProc e.n1 = true ∧ onProc e.n2 = true)
    (hC : ∀ c ∈ incs, onProc c.m1 = true ∧ onProc c.m2 = true) :
    (∀ e ∈ edges, poissonEdgeEntries gOff onProc V e
        = [(gOff e.n1, poissonFlux e V), (gOff e.n2, -poissonFlux e V)])
    ∧ (∀ c ∈ incs,
        sgIncidenceEntries gOff onProc (sgEdgeBuffer JnOf edges) (sgEdgeBuffer JpOf edges) c
          = [(gOff c.m1 + 1, sgJnValue (sgEdgeBuffer JnOf edges) c * c.tArea),
             (gOff c.m1 + 2, -(sgJpValue (sgEdgeBuffer JpOf edges) c * c.tArea)),
             (gOff c.m2 + 1, -(sgJnValue (sgEdgeBuffer JnOf edges) c * c.tArea)),
             (gOff c.m2 + 2, sgJpValue (sgEdgeBuffer JpOf edges) c * c.tArea)])
    ∧ ((ddm1EdgeEntries gOff onProc V JnOf JpOf edges incs).map Prod.snd).sum = 0 := by
  refine ⟨?_, ?_, ?_⟩
  · intro e he
    unfold poissonEdgeEntries
    rw [(hE e he).1, (hE e he).2]
    simp
  · intro c hc
    unfold sgIncidenceEntries
    rw [(hC c hc).1, (hC c hc).2]
    simp
  · unfold ddm1EdgeEntries
    rw [List.map_append, List.sum_append]
    rw [sum_snd_flatMap_zero (f := poissonEdgeEntries gOff onProc V) ?he,
        sum_snd_flatMap_zero ?hc]
    · ring
    case he =>
      intro e he
      unfold poissonEdgeEntries
      rw [(hE e he).1, (hE e he).2]
      simp
    case hc =>
      intro c hc
      unfold sgIncidenceEntries
      rw [(hC c hc).1, (hC c hc).2]
      simp only [if_true, List.append_eq, List.map_append, List.sum_append,
                 List.map_cons, List.map_nil, List.sum_cons, List.sum_nil]
      ring

/-- C6 witness: conservation evaluated on the 2-node 1-edge mesh and on
the 4-node closed loop. -/
theorem ddm1_edge_flux_conservation_witness :
    ((ddm1EdgeEntries (fun n => 3*n) (fun _ => true) idVec qJn qJp
        edgesPair incsPair).map Prod.snd).sum = 0
    ∧ ((ddm1EdgeEntries (fun n => 3*n) (fun _ => true) idVec qJn qJp
        edgesLoop incsLoop).map Prod.snd).sum = 0 := by
  refine ⟨?_, ?_⟩
  · exact (ddm1_edge_flux_conservation (fun n => 3*n) (fun _ => true) idVec qJn qJp
      edgesPair incsPair (by decide) (by decide)).2.2
  · exact (ddm1_edge_flux_conservation (fun n => 3*n) (fun _ => true) idVec qJn qJp
      edgesLoop incsLoop (by decide) (by decide)).2.2

/-- C10: when the globally reduced count `N` of error-carrying unknowns is
zero, `LTE_norm` returns exactly `1.0` rather than an RMS-normalised
value, for every time-stepping scheme, tolerance and solution history. -/
theorem LTE_norm_returns_one_when_N_zero {α : Type} [LinearOrderedField α]
    (sqrtF : α → α) (ts : TSType) (hn hn1 hn2 epsr epsa : α)
    (sys : List EBMRegion) (bcOffs : List ℕ) (totalDofs : ℕ)
    (x x_n x_n1 x_n2 : ℕ → α)
    (hN : lteCountN sys = 0) :
    LTE_norm sqrtF ts hn hn1 hn2 epsr epsa sys bcOffs totalDofs x x_n x_n1 x_n2
      = 1 := by
  unfold LTE_norm
  rw [hN]
  simp

/-- C10 witness: the `N = 0` branch evaluated on an empty region list. -/
theorem LTE_norm_returns_one_when_N_zero_witness :
    LTE_norm (fun a : ℚ => a) TSType.BDF1 1 1 1 1 1 [] [] 0
      (fun _ => 0) (fun _ => 0) (fun _ => 0) (fun _ => 0) = 1 := by
  exact LTE_norm_returns_one_when_N_zero (fun a : ℚ => a) TSType.BDF1 1 1 1 1 1
    [] [] 0 (fun _ => 0) (fun _ => 0) (fun _ => 0) (fun _ => 0) rfl

theorem updConstZero {α : Type} [LinearOrderedField α] {v : ℕ → α}
    (h : ∀ k, v k = 0) (s : ℕ) : ∀ k, Function.update v s 0 k = 0 := by
  intro k
  by_cases hk : k = s
  · subst hk; rw [Function.update_same]
  · rw [Function.update_noteq hk]; exact h k

theorem updDivZero {α : Type} [LinearOrderedField α] {v : ℕ → α}
    (h : ∀ k, v k = 0) (s : ℕ) (d : α) :
    ∀ k, Function.update v s (v s / d) k = 0 := by
  intro k
  by_cases hk : k = s
  · subst hk; rw [Function.update_same, h, zero_div]
  · rw [Function.update_noteq hk]; exact h k

theorem lteScaleNode_zero {α : Type} [LinearOrderedField α]
    (R : EBMRegion) (epsr epsa : α) (x : ℕ → α) (off : ℕ) {ll : ℕ → α}
    (h : ∀ k, ll k = 0) :
    ∀ k, lteScaleNode R epsr epsa x off ll k = 0 := by
  unfold lteScaleNode
  cases R.rtype <;>
    [skip; skip; skip; skip; exact h] <;>
    by_cases hTl : R.enTl <;> by_cases hTn : R.enTn <;> by_cases hTp : R.enTp <;>
    simp only [hTl, hTn, hTp, if_true, if_false, Bool.false_eq_true] <;>
    repeat
      first
        | exact h
        | apply updDivZero
        | apply updConstZero

theorem lteScaleNodes_zero {α : Type} [LinearOrderedField α]
    (R : EBMRegion) (epsr epsa : α) (x : ℕ → α) (ns : List ℕ) {ll : ℕ → α}
    (h : ∀ k, ll k = 0) :
    ∀ k, lteScaleNodes R epsr epsa x ns ll k = 0 := by
  induction ns generalizing ll with
  | nil => exact h
  | cons o rest ih => exact ih (lteScaleNode_zero R epsr epsa x o h)

theorem lteScaleRegions_zero {α : Type} [LinearOrderedField α]
    (epsr epsa : α) (x : ℕ → α) (sys : List EBMRegion) {ll : ℕ → α}
    (h : ∀ k, ll k = 0) :
    ∀ k, lteScaleRegions epsr epsa x sys ll k = 0 := by
  induction sys generalizing ll with
  | nil => exact h
  | cons R rest ih =>
    unfold lteScaleRegions
    by_cases hc : R.rtype = RegionType.Vacuum
    · rw [if_pos hc]; exact ih h
    · rw [if_neg hc]; exact ih (lteScaleNodes_zero R epsr epsa x R.nodes h)

theorem lteZeroBc_zero {α : Type} [LinearOrderedField α]
    (bs : List ℕ) {ll : ℕ → α} (h : ∀ k, ll k = 0) :
    ∀ k, lteZeroBc bs ll k = 0 := by
  induction bs generalizing ll with
  | nil => exact h
  | cons a rest ih => exact ih (updConstZero h a)

/-- C8: when the extrapolated predictor coincides with the corrector
solution and the system carries at least one error-tracked unknown, the
LTE vector vanishes identically, the RMS-normalised norm evaluates to
exactly `0`, and the (spec-modelled) adaptive step controller accepts the
step. -/
theorem LTE_norm_zero_for_exact_predictor
    (ts : TSType) (hn hn1 hn2 epsr epsa : ℝ)
    (sys : List EBMRegion) (bcOffs : List ℕ) (totalDofs : ℕ)
    (x x_n x_n1 x_n2 : ℕ → ℝ)
    (hpred : ∀ k, ltePredictor ts hn hn1 hn2 x_n x_n1 x_n2 k = x k)
    (hN : 0 < lteCountN sys) :
    LTE_norm Real.sqrt ts hn hn1 hn2 epsr epsa sys bcOffs totalDofs x x_n x_n1 x_n2 = 0
    ∧ lteStepAccepted
        (LTE_norm Real.sqrt ts hn hn1 hn2 epsr epsa sys bcOffs totalDofs x x_n x_n1 x_n2)
      = true := by
  have hraw : ∀ k, lteRaw ts hn hn1 hn2 x x_n x_n1 x_n2 k = 0 := by
    intro k
    cases ts <;> simp only [lteRaw, ltePredictor] at hpred ⊢ <;>
      rw [hpred k] <;> ring
  have hll : ∀ k,
      lteZeroBc bcOffs
        (lteScaleRegions epsr epsa x sys (lteRaw ts hn hn1 hn2 x x_n x_n1 x_n2)) k = 0 :=
    lteZeroBc_zero bcOffs (lteScaleRegions_zero epsr epsa x sys hraw)
  have hzero :
      LTE_norm Real.sqrt ts hn hn1 hn2 epsr epsa sys bcOffs totalDofs x x_n x_n1 x_n2
        = 0 := by
    unfold LTE_norm
    rw [if_pos hN]
    have hsum : (∑ k ∈ Finset.range totalDofs,
        (lteZeroBc bcOffs (lteScaleRegions epsr epsa x sys
          (lteRaw ts hn hn1 hn2 x x_n x_n1 x_n2)) k)^2) = 0 := by
      refine Finset.sum_eq_zero ?_
      intro k _
      rw [hll k]
      ring
    rw [hsum, Real.sqrt_zero, zero_div]
  refine ⟨hzero, ?_⟩
  rw [hzero]
  simp [lteStepAccepted]

/-- C8 witness: the zero-LTE statement evaluated on one drift-diffusion
region with constant (zero) solution history under BDF1. -/
theorem LTE_norm_zero_for_exact_predictor_witness :
    LTE_norm Real.sqrt TSType.BDF1 1 1 1 1 1 [ddRegion] [] 4
      (fun _ => 0) (fun _ => 0) (fun _ => 0) (fun _ => 0) = 0
    ∧ lteStepAccepted
        (LTE_norm Real.sqrt TSType.BDF1 1 1 1 1 1 [ddRegion] [] 4
          (fun _ => 0) (fun _ => 0) (fun _ => 0) (fun _ => 0)) = true := by
  exact LTE_norm_zero_for_exact_predictor TSType.BDF1 1 1 1 1 1 [ddRegion] [] 4
    (fun _ => 0) (fun _ => 0) (fun _ => 0) (fun _ => 0)
    (by intro k; simp [ltePredictor]) (by decide)
